import Mathlib

/-!
# Verification of the OpenCodeUI SSE bridge (`src/src-tauri/src/app.rs`)

A shallow embedding of the single-connection Server-Sent-Events client:
the connection identity registry (`SseState`, two atomic counters), the
line framer (per-chunk `String::from_utf8_lossy` plus newline splitting on
a carry-over buffer), the SSE event assembler (`data:` lines accumulated
and flushed at blank lines), the stream driver loop of `sse_connect`, and
`sse_disconnect`.

Bytes are `Nat` (values `0..255`), Rust `String`s are `List Char`.
The driver's interaction with the network is abstracted as a list of
read outcomes (`ReadResult`), and the racing `sse_disconnect` as a
per-iteration cancellation observation (`Nat → Bool`), matching the
`active_id` check at the top of the read loop.
-/

namespace OpenCodeUI

/-! ## Permissive UTF-8 decoding (Rust `String::from_utf8_lossy`)

Rust replaces each maximal invalid subsequence following the WHATWG
"substitution of maximal subparts" policy.  `repl` is U+FFFD. -/

def repl : Char := Char.ofNat 0xFFFD

/-- Decoder state of the streaming UTF-8 decoder (WHATWG Encoding
Standard, the algorithm Rust's `from_utf8_lossy` replacement policy
follows): `needed` continuation bytes still expected, `acc` the partial
code point, and `lo`/`hi` the allowed range for the next byte (narrowed
after the leads `E0`, `ED`, `F0`, `F4` to rule out overlong encodings
and surrogates). -/
structure Utf8State where
  needed : Nat
  acc : Nat
  lo : Nat
  hi : Nat
deriving DecidableEq

def initState : Utf8State := ⟨0, 0, 0x80, 0xBF⟩

/-- Decoder state entered after reading a multi-byte lead
`b ∈ 0xC2..0xF4`. -/
def leadState (b : Nat) : Utf8State :=
  if b < 0xE0 then ⟨1, b - 0xC0, 0x80, 0xBF⟩
  else if b < 0xF0 then
    ⟨2, b - 0xE0, if b = 0xE0 then 0xA0 else 0x80, if b = 0xED then 0x9F else 0xBF⟩
  else
    ⟨3, b - 0xF0, if b = 0xF0 then 0x90 else 0x80, if b = 0xF4 then 0x8F else 0xBF⟩

/-- One step of `String::from_utf8_lossy`: each maximal invalid subpart
becomes one U+FFFD; an invalid continuation byte is not consumed but
reprocessed as a lead (the lead-byte dispatch is inlined twice for that
reason). -/
def utf8DecodeAux : Utf8State → List Nat → List Char
  | st, [] => if st.needed = 0 then [] else [repl]
  | st, b :: rest =>
    if st.needed = 0 then
      if b < 0x80 then Char.ofNat b :: utf8DecodeAux initState rest
      else if b < 0xC2 then repl :: utf8DecodeAux initState rest
      else if b < 0xF5 then utf8DecodeAux (leadState b) rest
      else repl :: utf8DecodeAux initState rest
    else if st.lo ≤ b && b ≤ st.hi then
      if st.needed = 1 then
        Char.ofNat (st.acc * 0x40 + (b - 0x80)) :: utf8DecodeAux initState rest
      else utf8DecodeAux ⟨st.needed - 1, st.acc * 0x40 + (b - 0x80), 0x80, 0xBF⟩ rest
    else
      repl ::
        (if b < 0x80 then Char.ofNat b :: utf8DecodeAux initState rest
         else if b < 0xC2 then repl :: utf8DecodeAux initState rest
         else if b < 0xF5 then utf8DecodeAux (leadState b) rest
         else repl :: utf8DecodeAux initState rest)

/-- Rust `String::from_utf8_lossy` on a byte sequence (as `List Char`). -/
def utf8Decode (l : List Nat) : List Char := utf8DecodeAux initState l

/-- The byte sequence continues and finishes well-formed UTF-8 from
decoder state `st` (decoding emits no replacement character). -/
def utf8ValidAux : Utf8State → List Nat → Bool
  | st, [] => st.needed = 0
  | st, b :: rest =>
    if st.needed = 0 then
      if b < 0x80 then utf8ValidAux initState rest
      else if b < 0xC2 then false
      else if b < 0xF5 then utf8ValidAux (leadState b) rest
      else false
    else if st.lo ≤ b && b ≤ st.hi then
      if st.needed = 1 then utf8ValidAux initState rest
      else utf8ValidAux ⟨st.needed - 1, st.acc * 0x40 + (b - 0x80), 0x80, 0xBF⟩ rest
    else false

/-- The byte sequence is well-formed UTF-8. -/
def utf8Valid (l : List Nat) : Bool := utf8ValidAux initState l

/-! ## Line framer

`sse_connect` appends each lossily-decoded chunk to `buffer` and then
repeatedly extracts the text before the next `'\n'` as one line
(`while let Some(newline_pos) = buffer.find('\n')`). -/

/-- Split a buffer at every `'\n'`: the list of complete lines (newline
not included) and the carry-over remainder after the last newline. -/
def splitLines : List Char → List (List Char) × List Char
  | [] => ([], [])
  | c :: cs =>
    if c = '\n' then ([] :: (splitLines cs).1, (splitLines cs).2)
    else
      match (splitLines cs).1 with
      | [] => ([], c :: (splitLines cs).2)
      | l :: ls2 => ((c :: l) :: ls2, (splitLines cs).2)

/-! ## SSE event assembler

Per line of `sse_connect`'s inner loop: strip trailing `'\r'`
(`trim_end_matches('\r')`), then dispatch on a `data:` tag
(`strip_prefix("data:")` followed by `.trim()`), blank line, or other. -/

/-- Rust `trim_end_matches('\r')`: remove every trailing `'\r'`. -/
def trimEndCr (l : List Char) : List Char :=
  (l.reverse.dropWhile (fun c => c = '\r')).reverse

/-- Rust `char::is_whitespace`: the Unicode `White_Space` property. -/
def isWs (c : Char) : Bool :=
  let n := c.toNat
  (0x09 ≤ n && n ≤ 0x0D) || n = 0x20 || n = 0x85 || n = 0xA0 || n = 0x1680 ||
    (0x2000 ≤ n && n ≤ 0x200A) || n = 0x2028 || n = 0x2029 || n = 0x202F ||
    n = 0x205F || n = 0x3000

/-- Rust `str::trim`: drop whitespace from both ends. -/
def rustTrim (l : List Char) : List Char :=
  ((l.dropWhile isWs).reverse.dropWhile isWs).reverse

/-- Rust `line.strip_prefix("data:")`. -/
def stripDataTag : List Char → Option (List Char)
  | 'd' :: 'a' :: 't' :: 'a' :: ':' :: rest => some rest
  | _ => none

/-- One line fed to the assembler: the new accumulator (`event_data`)
and the message emitted, if any (emitted on a blank line with a
non-empty accumulator). -/
def processLine (event_data : List Char) (rawLine : List Char) :
    List Char × Option (List Char) :=
  let line := trimEndCr rawLine
  match stripDataTag line with
  | some stripped =>
    let data := rustTrim stripped
    if data.isEmpty then (event_data, none)
    else if event_data.isEmpty then (data, none)
    else (event_data ++ '\n' :: data, none)
  | none =>
    if line.isEmpty then
      if event_data.isEmpty then (event_data, none)
      else ([], some event_data)
    else (event_data, none)

/-- Feed a sequence of lines: final accumulator and emitted messages in
order. -/
def feedLines (event_data : List Char) : List (List Char) → List Char × List (List Char)
  | [] => (event_data, [])
  | l :: rest =>
    let (ed1, m) := processLine event_data l
    let (ed2, ms) := feedLines ed1 rest
    (ed2, m.toList ++ ms)

/-! ## Events, read outcomes and the stream driver -/

/-- The four-variant `SseEvent` union sent over the Tauri channel. -/
inductive SseEvent where
  | connected : SseEvent
  | message : List Char → SseEvent
  | disconnected : List Char → SseEvent
  | error : List Char → SseEvent
deriving DecidableEq

/-- The `Result<(), String>` returned by the commands. -/
inductive CmdResult where
  | ok : CmdResult
  | err : List Char → CmdResult
deriving DecidableEq

/-- Outcome of one `tokio::time::timeout(READ_TIMEOUT, stream.next())`
poll: a data chunk (`Ok(Some(Ok(_)))`), a transport error
(`Ok(Some(Err(_)))`, carrying the error's display text), end of stream
(`Ok(None)`), or the 90-second idle timeout elapsing (`Err(_)`). -/
inductive ReadResult where
  | chunk : List Nat → ReadResult
  | readErr : List Char → ReadResult
  | eof : ReadResult
  | timeout : ReadResult

/-- Outcome of the handshake: `reqwest` client construction failure,
transport failure of `send()` (with the error text), or a response with
its status (`success` flag plus status text). -/
inductive HandshakeResult where
  | clientBuildErr : List Char → HandshakeResult
  | sendErr : List Char → HandshakeResult
  | response : Bool → List Char → HandshakeResult

def disconnectedByClient : List Char := "Disconnected by client".toList
def streamEnded : List Char := "Stream ended".toList
def timeoutMsg : List Char := "SSE read timeout (90s without data)".toList
def streamErrMsg (e : List Char) : List Char := "SSE stream error: ".toList ++ e
def connFailedMsg (e : List Char) : List Char := "SSE connection failed: ".toList ++ e
def statusErrMsg (s : List Char) : List Char := "SSE server returned ".toList ++ s
def buildErrMsg (e : List Char) : List Char := "Failed to create HTTP client: ".toList ++ e

/-- Decode a chunk, push it through the line framer, and feed the new
lines to the assembler: new carry-over buffer, new accumulator, and the
messages completed by this chunk. -/
def processChunk (buffer event_data : List Char) (bytes : List Nat) :
    List Char × List Char × List (List Char) :=
  let (lines, buffer2) := splitLines (buffer ++ utf8Decode bytes)
  let (event_data2, msgs) := feedLines event_data lines
  (buffer2, event_data2, msgs)

/-- The `loop` of `sse_connect`.  `cancelled step` is the value of
`state.active_id.load(SeqCst) != conn_id` observed at the top of
iteration `step` (set by a racing `sse_disconnect` or a superseding
`sse_connect`).  `reads` are the successive poll outcomes; `none` means
the abstract trace ran out of outcomes before the loop terminated. -/
def streamLoop (cancelled : Nat → Bool) :
    Nat → List Char → List Char → List ReadResult →
      Option (List SseEvent × CmdResult)
  | step, buffer, event_data, reads =>
    if cancelled step then
      some ([SseEvent.disconnected disconnectedByClient], CmdResult.ok)
    else
      match reads with
      | [] => none
      | ReadResult.chunk bytes :: rest =>
        Option.map
          (fun er =>
            ((processChunk buffer event_data bytes).2.2.map SseEvent.message ++ er.1,
              er.2))
          (streamLoop cancelled (step + 1) (processChunk buffer event_data bytes).1
            (processChunk buffer event_data bytes).2.1 rest)
      | ReadResult.readErr e :: _ =>
        some ([SseEvent.error (streamErrMsg e)], CmdResult.err (streamErrMsg e))
      | ReadResult.eof :: _ =>
        some ((if event_data.isEmpty then [] else [SseEvent.message event_data]) ++
          [SseEvent.disconnected streamEnded], CmdResult.ok)
      | ReadResult.timeout :: _ =>
        some ([SseEvent.error timeoutMsg], CmdResult.err timeoutMsg)

/-- `sse_connect`, given the handshake outcome and the abstract stream:
the events sent over the channel, in order, and the command's return
value. -/
def sse_connect (hs : HandshakeResult) (cancelled : Nat → Bool)
    (reads : List ReadResult) : Option (List SseEvent × CmdResult) :=
  match hs with
  | HandshakeResult.clientBuildErr e => some ([], CmdResult.err (buildErrMsg e))
  | HandshakeResult.sendErr e =>
    some ([SseEvent.error (connFailedMsg e)], CmdResult.err (connFailedMsg e))
  | HandshakeResult.response success status =>
    if success then
      Option.map (fun er => (SseEvent.connected :: er.1, er.2))
        (streamLoop cancelled 0 [] [] reads)
    else
      some ([SseEvent.error (statusErrMsg status)], CmdResult.err (statusErrMsg status))

/-! ## Connection identity registry -/

/-- `SseState`: the two `AtomicU64` counters. -/
structure SseState where
  current_id : Nat
  active_id : Nat
deriving DecidableEq

/-- `SseState::default()`. -/
def defaultState : SseState := ⟨0, 0⟩

/-- The `u64` modulus: `AtomicU64` arithmetic wraps at `2 ^ 64`. -/
def u64Mod : Nat := 2 ^ 64

/-- First atomic operation at the start of `sse_connect`:
`current_id.fetch_add(1, SeqCst) + 1`.  `fetch_add` stores the wrapped
`(current_id + 1) % 2 ^ 64` and returns the old value; the release-mode
`+ 1` on that old value wraps to the same result, so the issued id is
`(current_id + 1) % 2 ^ 64`.  The pair is the issued id and the state
every concurrent observer sees until the second operation runs. -/
def beginStep1 (s : SseState) : SseState × Nat :=
  (⟨(s.current_id + 1) % u64Mod, s.active_id⟩, (s.current_id + 1) % u64Mod)

/-- Second atomic operation: `active_id.store(conn_id, SeqCst)`. -/
def beginStep2 (conn_id : Nat) (s : SseState) : SseState :=
  ⟨s.current_id, conn_id⟩

/-- Both operations run back to back with no interleaved access. -/
def begin_connection (s : SseState) : SseState × Nat :=
  let (s1, conn_id) := beginStep1 s
  (beginStep2 conn_id s1, conn_id)

/-- `sse_disconnect`: `active_id.store(0, SeqCst); Ok(())`. -/
def sse_disconnect (s : SseState) : SseState × CmdResult :=
  (⟨s.current_id, 0⟩, CmdResult.ok)

/-- `n` sequential `sse_connect` id registrations on a fresh client:
final state and the issued ids in order. -/
def runConnects : Nat → SseState × List Nat
  | 0 => (defaultState, [])
  | n + 1 =>
    let (s, ids) := runConnects n
    let (s2, conn_id) := begin_connection s
    (s2, ids ++ [conn_id])

/-! ## The line framer over a whole chunk sequence -/

/-- One `Ok(Some(Ok(chunk)))` arm viewed as a framer operation: decode
the chunk, append to the carry-over buffer, split off complete lines. -/
def frameStep (st : List (List Char) × List Char) (chunk : List Nat) :
    List (List Char) × List Char :=
  let (ls, buf) := splitLines (st.2 ++ utf8Decode chunk)
  (st.1 ++ ls, buf)

/-- Feed a chunk sequence to the framer: all produced lines and the
final carry-over buffer. -/
def frameChunks (chunks : List (List Nat)) : List (List Char) × List Char :=
  chunks.foldl frameStep ([], [])

/-! ## Helper lemmas -/

lemma utf8DecodeAux_needed_zero (st : Utf8State) (h : st.needed = 0) (l : List Nat) :
    utf8DecodeAux st l = utf8DecodeAux initState l := by
  cases l with
  | nil => simp [utf8DecodeAux, h, initState]
  | cons b rest => simp [utf8DecodeAux, h, initState]

/-- Decoding distributes over append when the first part is well-formed
UTF-8 from the current state. -/
lemma utf8DecodeAux_append :
    ∀ (a : List Nat) (st : Utf8State) (ext : List Nat), utf8ValidAux st a = true →
      utf8DecodeAux st (a ++ ext) = utf8DecodeAux st a ++ utf8DecodeAux initState ext := by
  intro a
  induction a with
  | nil =>
    intro st ext h
    have h0 : st.needed = 0 := by simpa [utf8ValidAux] using h
    simp [utf8DecodeAux, h0, utf8DecodeAux_needed_zero st h0]
  | cons b rest ih =>
    intro st ext h
    by_cases h0 : st.needed = 0
    · by_cases hb1 : b < 0x80
      · have hv : utf8ValidAux initState rest = true := by
          simpa [utf8ValidAux, h0, hb1] using h
        simp [utf8DecodeAux, h0, hb1, ih initState ext hv]
      · by_cases hb2 : b < 0xC2
        · exact absurd h (by simp [utf8ValidAux, h0, hb1, hb2])
        · by_cases hb3 : b < 0xF5
          · have hv : utf8ValidAux (leadState b) rest = true := by
              simpa [utf8ValidAux, h0, hb1, hb2, hb3] using h
            simp [utf8DecodeAux, h0, hb1, hb2, hb3, ih (leadState b) ext hv]
          · exact absurd h (by simp [utf8ValidAux, h0, hb1, hb2, hb3])
    · by_cases hr : (st.lo ≤ b && b ≤ st.hi) = true
      · by_cases h1 : st.needed = 1
        · have hv : utf8ValidAux initState rest = true := by
            simpa [utf8ValidAux, h0, hr, h1] using h
          simp [utf8DecodeAux, h0, hr, h1, ih initState ext hv]
        · have hv :
              utf8ValidAux ⟨st.needed - 1, st.acc * 0x40 + (b - 0x80), 0x80, 0xBF⟩ rest =
                true := by
            simpa [utf8ValidAux, h0, hr, h1] using h
          simp [utf8DecodeAux, h0, hr, h1, ih _ ext hv]
      · exact absurd h (by simp [utf8ValidAux, h0, hr])

lemma utf8Decode_append (a ext : List Nat) (h : utf8Valid a = true) :
    utf8Decode (a ++ ext) = utf8Decode a ++ utf8Decode ext :=
  utf8DecodeAux_append a initState ext h

lemma utf8Decode_nil : utf8Decode [] = [] := rfl

lemma newline_not_mem_splitLines_snd : ∀ z : List Char, '\n' ∉ (splitLines z).2 := by
  intro z
  induction z with
  | nil => simp [splitLines]
  | cons c cs ih =>
    by_cases hc : c = '\n'
    · simpa [splitLines, hc] using ih
    · cases hls : (splitLines cs).1 with
      | nil =>
        simp only [splitLines, hc, if_false, hls]
        intro hmem
        rcases List.mem_cons.mp hmem with h | h
        · exact hc h.symm
        · exact ih h
      | cons l ls2 => simpa [splitLines, hc, hls] using ih

lemma splitLines_no_newline : ∀ r : List Char, '\n' ∉ r → splitLines r = ([], r) := by
  intro r
  induction r with
  | nil => intro _; rfl
  | cons c cs ih =>
    intro h
    have hc : ¬c = '\n' := fun hx => h (hx ▸ List.mem_cons_self c cs)
    have hcs : '\n' ∉ cs := fun hx => h (List.mem_cons_of_mem c hx)
    simp [splitLines, hc, ih hcs]

/-- Splitting a concatenation: the lines of `x`, then the lines obtained
by continuing from `x`'s carry-over remainder. -/
lemma splitLines_append :
    ∀ x y : List Char,
      splitLines (x ++ y) =
        ((splitLines x).1 ++ (splitLines ((splitLines x).2 ++ y)).1,
          (splitLines ((splitLines x).2 ++ y)).2) := by
  intro x
  induction x with
  | nil => intro y; simp [splitLines]
  | cons c cs ih =>
    intro y
    by_cases hc : c = '\n'
    · simp [splitLines, hc, ih y]
    · cases hA : (splitLines cs).1 with
      | nil =>
        cases hB : (splitLines ((splitLines cs).2 ++ y)).1 with
        | nil =>
          simp [splitLines, hc, ih y, hA, hB]
        | cons l ls2 =>
          simp [splitLines, hc, ih y, hA, hB]
      | cons l ls2 =>
        simp [splitLines, hc, ih y, hA]

/-- Folding the framer over a chunk list, when every chunk is
well-formed UTF-8 on its own and the starting buffer holds no newline,
equals splitting the decoded concatenation in one go. -/
lemma foldl_frameStep :
    ∀ (chunks : List (List Nat)) (acc : List (List Char)) (buf : List Char),
      (∀ ch ∈ chunks, utf8Valid ch = true) → '\n' ∉ buf →
      chunks.foldl frameStep (acc, buf) =
        (acc ++ (splitLines (buf ++ utf8Decode chunks.flatten)).1,
          (splitLines (buf ++ utf8Decode chunks.flatten)).2) := by
  intro chunks
  induction chunks with
  | nil =>
    intro acc buf _ hbuf
    simp [utf8Decode_nil, splitLines_no_newline buf hbuf]
  | cons ch rest ih =>
    intro acc buf hvalid hbuf
    have hch : utf8Valid ch = true := hvalid ch (List.mem_cons_self ch rest)
    have hrest : ∀ c ∈ rest, utf8Valid c = true := fun c hc =>
      hvalid c (List.mem_cons_of_mem ch hc)
    have hstep : frameStep (acc, buf) ch =
        (acc ++ (splitLines (buf ++ utf8Decode ch)).1,
          (splitLines (buf ++ utf8Decode ch)).2) := by
      simp [frameStep]
    have hrem : '\n' ∉ (splitLines (buf ++ utf8Decode ch)).2 :=
      newline_not_mem_splitLines_snd _
    calc (ch :: rest).foldl frameStep (acc, buf)
        = rest.foldl frameStep (frameStep (acc, buf) ch) := rfl
      _ = (acc ++ (splitLines (buf ++ utf8Decode ch)).1 ++
            (splitLines ((splitLines (buf ++ utf8Decode ch)).2 ++
              utf8Decode rest.flatten)).1,
          (splitLines ((splitLines (buf ++ utf8Decode ch)).2 ++
            utf8Decode rest.flatten)).2) := by
          rw [hstep, ih _ _ hrest hrem]
      _ = (acc ++ (splitLines (buf ++ utf8Decode (ch :: rest).flatten)).1,
          (splitLines (buf ++ utf8Decode (ch :: rest).flatten)).2) := by
          have hjoin : utf8Decode (ch :: rest).flatten =
              utf8Decode ch ++ utf8Decode rest.flatten := by
            simpa using utf8Decode_append ch rest.flatten hch
          rw [hjoin, ← List.append_assoc buf, splitLines_append (buf ++ utf8Decode ch),
            List.append_assoc]

/-- C2, as stated, is false: feeding the chunks one by one is NOT always
the same as feeding the concatenation, because each chunk is decoded
with `String::from_utf8_lossy` on its own — a two-byte character
`U+00E9` (`C3 A9`) split across a chunk boundary decodes to two
replacement characters instead. -/
theorem claim2_counterexample :
    frameChunks [[0xC3], [0xA9], [0x0A]] ≠ frameChunks [[0xC3, 0xA9, 0x0A]] := by
  decide

/-- C2 (amended): for every byte sequence and every partition of it into
chunks each of which is well-formed UTF-8 on its own (in particular, no
chunk boundary splits a multi-byte character), feeding the chunks one by
one to the line framer yields the same lines and carry-over as feeding
the whole sequence as a single chunk. -/
theorem claim2_amended (chunks : List (List Nat))
    (h : ∀ ch ∈ chunks, utf8Valid ch = true) :
    frameChunks chunks = frameChunks [chunks.flatten] := by
  have h1 := foldl_frameStep chunks [] [] h (by simp)
  show chunks.foldl frameStep ([], []) = frameChunks [chunks.flatten]
  rw [h1]
  simp [frameChunks, frameStep]

/-- Witness for C2 (amended): a concrete two-chunk partition, each chunk
well-formed UTF-8 (the second contains a complete two-byte character),
on which the hypotheses hold and the framer is split-invariant. -/
theorem claim2_witness :
    (∀ ch ∈ [[0x68, 0x69, 0x0A], [0xC3, 0xA9, 0x0A]], utf8Valid ch = true) ∧
      frameChunks [[0x68, 0x69, 0x0A], [0xC3, 0xA9, 0x0A]] =
        frameChunks [([[0x68, 0x69, 0x0A], [0xC3, 0xA9, 0x0A]] : List (List Nat)).flatten] :=
  ⟨by decide, claim2_amended [[0x68, 0x69, 0x0A], [0xC3, 0xA9, 0x0A]] (by decide)⟩

/-! Unfolding equations for one iteration of the read loop. -/

lemma streamLoop_cancelled (c : Nat → Bool) (step : Nat) (buffer ed : List Char)
    (reads : List ReadResult) (hc : c step = true) :
    streamLoop c step buffer ed reads =
      some ([SseEvent.disconnected disconnectedByClient], CmdResult.ok) := by
  rw [streamLoop.eq_def]; simp [hc]

lemma streamLoop_nil (c : Nat → Bool) (step : Nat) (buffer ed : List Char)
    (hc : c step = false) : streamLoop c step buffer ed [] = none := by
  rw [streamLoop.eq_def]; simp [hc]

lemma streamLoop_chunk (c : Nat → Bool) (step : Nat) (buffer ed : List Char)
    (bytes : List Nat) (rest : List ReadResult) (hc : c step = false) :
    streamLoop c step buffer ed (ReadResult.chunk bytes :: rest) =
      Option.map
        (fun er =>
          ((processChunk buffer ed bytes).2.2.map SseEvent.message ++ er.1, er.2))
        (streamLoop c (step + 1) (processChunk buffer ed bytes).1
          (processChunk buffer ed bytes).2.1 rest) := by
  rw [streamLoop.eq_def]; simp [hc]

lemma streamLoop_readErr (c : Nat → Bool) (step : Nat) (buffer ed : List Char)
    (e : List Char) (rest : List ReadResult) (hc : c step = false) :
    streamLoop c step buffer ed (ReadResult.readErr e :: rest) =
      some ([SseEvent.error (streamErrMsg e)], CmdResult.err (streamErrMsg e)) := by
  rw [streamLoop.eq_def]; simp [hc]

lemma streamLoop_eof (c : Nat → Bool) (step : Nat) (buffer ed : List Char)
    (rest : List ReadResult) (hc : c step = false) :
    streamLoop c step buffer ed (ReadResult.eof :: rest) =
      some ((if ed.isEmpty then [] else [SseEvent.message ed]) ++
        [SseEvent.disconnected streamEnded], CmdResult.ok) := by
  rw [streamLoop.eq_def]; simp [hc]

lemma streamLoop_timeout (c : Nat → Bool) (step : Nat) (buffer ed : List Char)
    (rest : List ReadResult) (hc : c step = false) :
    streamLoop c step buffer ed (ReadResult.timeout :: rest) =
      some ([SseEvent.error timeoutMsg], CmdResult.err timeoutMsg) := by
  rw [streamLoop.eq_def]; simp [hc]

/-- Every terminating run of the read loop emits some messages followed
by exactly one terminal event: a `Disconnected` when the command returns
`Ok`, an `Error` carrying the same text as the returned `Err`
otherwise. -/
lemma streamLoop_shape :
    ∀ (reads : List ReadResult) (c : Nat → Bool) (step : Nat) (buffer ed : List Char)
      (evs : List SseEvent) (res : CmdResult),
      streamLoop c step buffer ed reads = some (evs, res) →
      ∃ (msgs : List (List Char)) (term : SseEvent),
        evs = msgs.map SseEvent.message ++ [term] ∧
        ((res = CmdResult.ok ∧ ∃ r, term = SseEvent.disconnected r) ∨
          (∃ m, res = CmdResult.err m ∧ term = SseEvent.error m)) := by
  intro reads
  induction reads with
  | nil =>
    intro c step buffer ed evs res h
    by_cases hc : c step = true
    · rw [streamLoop_cancelled c step buffer ed [] hc] at h
      simp only [Option.some.injEq, Prod.mk.injEq] at h
      exact ⟨[], SseEvent.disconnected disconnectedByClient,
        by simp [← h.1], Or.inl ⟨h.2.symm, disconnectedByClient, rfl⟩⟩
    · rw [streamLoop_nil c step buffer ed (by simpa using hc)] at h
      exact absurd h (by simp)
  | cons r rest ih =>
    intro c step buffer ed evs res h
    by_cases hc : c step = true
    · rw [streamLoop_cancelled c step buffer ed _ hc] at h
      simp only [Option.some.injEq, Prod.mk.injEq] at h
      exact ⟨[], SseEvent.disconnected disconnectedByClient,
        by simp [← h.1], Or.inl ⟨h.2.symm, disconnectedByClient, rfl⟩⟩
    · have hc2 : c step = false := by simpa using hc
      cases r with
      | chunk bytes =>
        rw [streamLoop_chunk c step buffer ed bytes rest hc2] at h
        cases hrec : streamLoop c (step + 1) (processChunk buffer ed bytes).1
            (processChunk buffer ed bytes).2.1 rest with
        | none => rw [hrec] at h; exact absurd h (by simp)
        | some p =>
          rcases p with ⟨evs2, res2⟩
          rw [hrec] at h
          simp only [Option.map_some', Option.some.injEq, Prod.mk.injEq] at h
          obtain ⟨msgs2, term, hshape, hterm⟩ :=
            ih c (step + 1) _ _ evs2 res2 hrec
          refine ⟨(processChunk buffer ed bytes).2.2 ++ msgs2, term, ?_, ?_⟩
          · rw [← h.1, hshape, List.map_append, List.append_assoc]
          · rcases hterm with ⟨hok, r, hr⟩ | ⟨m, hm, ht⟩
            · exact Or.inl ⟨h.2 ▸ hok, r, hr⟩
            · exact Or.inr ⟨m, h.2 ▸ hm, ht⟩
      | readErr e =>
        rw [streamLoop_readErr c step buffer ed e rest hc2] at h
        simp only [Option.some.injEq, Prod.mk.injEq] at h
        exact ⟨[], SseEvent.error (streamErrMsg e), by simp [← h.1],
          Or.inr ⟨streamErrMsg e, h.2.symm, rfl⟩⟩
      | eof =>
        rw [streamLoop_eof c step buffer ed rest hc2] at h
        simp only [Option.some.injEq, Prod.mk.injEq] at h
        by_cases hed : ed.isEmpty
        · refine ⟨[], SseEvent.disconnected streamEnded, ?_,
            Or.inl ⟨h.2.symm, _, rfl⟩⟩
          rw [← h.1]; simp [hed]
        · refine ⟨[ed], SseEvent.disconnected streamEnded, ?_,
            Or.inl ⟨h.2.symm, _, rfl⟩⟩
          rw [← h.1]; simp [hed]
      | timeout =>
        rw [streamLoop_timeout c step buffer ed rest hc2] at h
        simp only [Option.some.injEq, Prod.mk.injEq] at h
        exact ⟨[], SseEvent.error timeoutMsg, by simp [← h.1],
          Or.inr ⟨timeoutMsg, h.2.symm, rfl⟩⟩

/-- C3: the four event-assembly test vectors from the spec, evaluated on
the assembler exactly as `sse_connect` runs it. -/
theorem claim3_event_assembly :
    (feedLines [] ["data: a".toList, "data: b".toList, "".toList]).2 =
        ["a\nb".toList] ∧
      (feedLines [] ["data:".toList, "".toList]).2 = [] ∧
      (feedLines [] ["foo: bar".toList, "data: x".toList, "".toList]).2 =
        ["x".toList] ∧
      processLine [] "".toList = ([], none) := by
  decide

/-- C4: the pending accumulator is flushed exactly on graceful
end-of-stream.  With a non-empty accumulator, `Ok(None)` produces one
final `Message` with its contents followed by
`Disconnected("Stream ended")`; a transport error, an idle timeout, or
an observed cancellation produces its terminal event alone, discarding
the accumulator. -/
theorem claim4_eof_flush :
    (∀ (c : Nat → Bool) (step : Nat) (buffer ed : List Char) (rest : List ReadResult),
        c step = false → ed ≠ [] →
        streamLoop c step buffer ed (ReadResult.eof :: rest) =
          some ([SseEvent.message ed, SseEvent.disconnected streamEnded], CmdResult.ok)) ∧
      (∀ (c : Nat → Bool) (step : Nat) (buffer ed : List Char) (rest : List ReadResult)
          (e : List Char), c step = false →
          streamLoop c step buffer ed (ReadResult.readErr e :: rest) =
            some ([SseEvent.error (streamErrMsg e)], CmdResult.err (streamErrMsg e))) ∧
      (∀ (c : Nat → Bool) (step : Nat) (buffer ed : List Char) (rest : List ReadResult),
          c step = false →
          streamLoop c step buffer ed (ReadResult.timeout :: rest) =
            some ([SseEvent.error timeoutMsg], CmdResult.err timeoutMsg)) ∧
      (∀ (c : Nat → Bool) (step : Nat) (buffer ed : List Char) (reads : List ReadResult),
          c step = true →
          streamLoop c step buffer ed reads =
            some ([SseEvent.disconnected disconnectedByClient], CmdResult.ok)) := by
  refine ⟨?_, ?_, ?_, ?_⟩
  · intro c step buffer ed rest hc hed
    rw [streamLoop_eof c step buffer ed rest hc]
    simp [List.isEmpty_iff, hed]
  · intro c step buffer ed rest e hc
    exact streamLoop_readErr c step buffer ed e rest hc
  · intro c step buffer ed rest hc
    exact streamLoop_timeout c step buffer ed rest hc
  · intro c step buffer ed reads hc
    exact streamLoop_cancelled c step buffer ed reads hc

/-- Witness for C4: a concrete accumulator `"pending"` flushed at EOF,
and the same accumulator discarded when cancellation is observed. -/
theorem claim4_witness :
    streamLoop (fun _ => false) 0 [] "pending".toList [ReadResult.eof] =
        some ([SseEvent.message "pending".toList,
          SseEvent.disconnected streamEnded], CmdResult.ok) ∧
      streamLoop (fun _ => true) 0 [] "pending".toList [ReadResult.timeout] =
        some ([SseEvent.disconnected disconnectedByClient], CmdResult.ok) :=
  ⟨claim4_eof_flush.1 (fun _ => false) 0 [] "pending".toList [] rfl (by decide),
    claim4_eof_flush.2.2.2 (fun _ => true) 0 [] "pending".toList [ReadResult.timeout] rfl⟩

/-- C10: cancellation is observed only at the top of the loop.  If
iteration `step` is not yet cancelled, an arriving chunk is framed and
assembled in full — every message it completes is emitted — and only the
following iteration, seeing the cancellation, emits
`Disconnected("Disconnected by client")`. -/
theorem claim10_cancellation_poll_point (c : Nat → Bool) (step : Nat)
    (buffer ed : List Char) (bytes : List Nat) (rest : List ReadResult)
    (h1 : c step = false) (h2 : c (step + 1) = true) :
    streamLoop c step buffer ed (ReadResult.chunk bytes :: rest) =
      some ((processChunk buffer ed bytes).2.2.map SseEvent.message ++
        [SseEvent.disconnected disconnectedByClient], CmdResult.ok) := by
  rw [streamLoop_chunk c step buffer ed bytes rest h1,
    streamLoop_cancelled c (step + 1) _ _ rest h2]
  rfl

/-- Witness for C10: a chunk completing the event `"hi"` arrives in the
same poll in which the client disconnects; the message is still
delivered, then the disconnect notice. -/
theorem claim10_witness :
    streamLoop (fun n => decide (0 < n)) 0 [] []
        [ReadResult.chunk [0x64, 0x61, 0x74, 0x61, 0x3A, 0x20, 0x68, 0x69, 0x0A, 0x0A]] =
      some ([SseEvent.message "hi".toList,
        SseEvent.disconnected disconnectedByClient], CmdResult.ok) := by
  rw [claim10_cancellation_poll_point (fun n => decide (0 < n)) 0 [] []
    [0x64, 0x61, 0x74, 0x61, 0x3A, 0x20, 0x68, 0x69, 0x0A, 0x0A] [] rfl rfl]
  decide

/-- C1, as stated, is false: after `Connected` has been emitted, a
mid-stream transport error makes `sse_connect` return a call-level
`Err` (line 178 of `app.rs`), not `Ok` — the failure is reported both as
a terminal `Error` event and as the command's return value. -/
theorem claim1_counterexample :
    sse_connect (HandshakeResult.response true []) (fun _ => false)
        [ReadResult.readErr "boom".toList] =
      some ([SseEvent.connected, SseEvent.error (streamErrMsg "boom".toList)],
        CmdResult.err (streamErrMsg "boom".toList)) ∧
      CmdResult.err (streamErrMsg "boom".toList) ≠ CmdResult.ok := by
  decide

/-- C1 (amended): once `Connected` has been emitted, the command either
returns `Ok` with a final `Disconnected` event (graceful end of stream
or observed cancellation), or returns `Err m` having emitted a final
`Error` event with the same message `m` (mid-stream transport error or
idle-read timeout) — the failure is reported on both channels, never as
a return-level failure alone. -/
theorem claim1_amended (hs : HandshakeResult) (c : Nat → Bool)
    (reads : List ReadResult) (evs : List SseEvent) (res : CmdResult)
    (h : sse_connect hs c reads = some (evs, res))
    (hconn : SseEvent.connected ∈ evs) :
    (res = CmdResult.ok ∧ ∃ r, evs.getLast? = some (SseEvent.disconnected r)) ∨
      (∃ m, res = CmdResult.err m ∧ evs.getLast? = some (SseEvent.error m)) := by
  cases hs with
  | clientBuildErr e =>
    simp only [sse_connect, Option.some.injEq, Prod.mk.injEq] at h
    rw [← h.1] at hconn
    simp at hconn
  | sendErr e =>
    simp only [sse_connect, Option.some.injEq, Prod.mk.injEq] at h
    rw [← h.1] at hconn
    simp at hconn
  | response success status =>
    cases success with
    | false =>
      simp only [sse_connect, Bool.false_eq_true, if_false, Option.some.injEq,
        Prod.mk.injEq] at h
      rw [← h.1] at hconn
      simp at hconn
    | true =>
      simp only [sse_connect, if_true] at h
      cases hrec : streamLoop c 0 [] [] reads with
      | none => rw [hrec] at h; exact absurd h (by simp)
      | some p =>
        rcases p with ⟨evs2, res2⟩
        rw [hrec] at h
        simp only [Option.map_some', Option.some.injEq, Prod.mk.injEq] at h
        obtain ⟨msgs, term, hshape, hterm⟩ :=
          streamLoop_shape reads c 0 [] [] evs2 res2 hrec
        have hlast : evs.getLast? = some term := by
          rw [← h.1, hshape, ← List.cons_append, List.getLast?_concat]
        rcases hterm with ⟨hok, r, hr⟩ | ⟨m, hm, ht⟩
        · exact Or.inl ⟨h.2 ▸ hok, r, hr ▸ hlast⟩
        · exact Or.inr ⟨m, h.2 ▸ hm, ht ▸ hlast⟩

/-- Witness for C1 (amended): a graceful end of stream after
`Connected`, returning `Ok` with `Disconnected("Stream ended")` last. -/
theorem claim1_witness :
    (CmdResult.ok = CmdResult.ok ∧
        ∃ r, ([SseEvent.connected, SseEvent.disconnected streamEnded] :
          List SseEvent).getLast? = some (SseEvent.disconnected r)) ∨
      (∃ m, CmdResult.ok = CmdResult.err m ∧
        ([SseEvent.connected, SseEvent.disconnected streamEnded] :
          List SseEvent).getLast? = some (SseEvent.error m)) :=
  claim1_amended (HandshakeResult.response true []) (fun _ => false)
    [ReadResult.eof] [SseEvent.connected, SseEvent.disconnected streamEnded]
    CmdResult.ok (by decide) (by decide)

/-- C5, as stated, is false: `sse_connect` issues the id with
`current_id.fetch_add(1, SeqCst)` and installs it with a separate
`active_id.store(conn_id, SeqCst)` — two distinct atomic operations.
Starting from the fresh state, the state after the first operation (the
state any concurrent reader of the two atomics observes between them)
has the new id `1` already taken from the counter while the active id is
still `0`. -/
theorem claim5_counterexample :
    (beginStep1 ⟨0, 0⟩).2 = 1 ∧ (beginStep1 ⟨0, 0⟩).1.current_id = 1 ∧
      (beginStep1 ⟨0, 0⟩).1.active_id = 0 ∧ (0 : Nat) ≠ 1 := by
  decide

/-- C5 (amended): id issuance is two individually atomic steps, not one:
the `fetch_add` both increments the counter (wrapping at `2 ^ 64`) and
fixes the issued id `(current_id + 1) % 2 ^ 64`, the separate `store`
then makes it active.  Between the two steps the issued id is taken
from the counter but the active id still holds its previous value; only
after the second step is the issued id active. -/
theorem claim5_amended (s : SseState) :
    (beginStep1 s).2 = (s.current_id + 1) % u64Mod ∧
      (beginStep1 s).1.current_id = (beginStep1 s).2 ∧
      (beginStep1 s).1.active_id = s.active_id ∧
      (begin_connection s).1.active_id = (begin_connection s).2 ∧
      (begin_connection s).1.current_id = (begin_connection s).2 :=
  ⟨rfl, rfl, rfl, rfl, rfl⟩

/-- Closed form of `runConnects` over the wrapping `u64` counter: after
`n` calls the counter holds `n % 2 ^ 64`, the active id is the last
issued id (or `0` before the first call), and the issued ids are
`1, 2, …, n`, each reduced modulo `2 ^ 64`. -/
lemma runConnects_spec (n : Nat) :
    (runConnects n).1.current_id = n % u64Mod ∧
      (runConnects n).1.active_id = (if n = 0 then 0 else n % u64Mod) ∧
      (runConnects n).2 = (List.range' 1 n).map (· % u64Mod) := by
  induction n with
  | zero => exact ⟨rfl, rfl, rfl⟩
  | succ k ih =>
    obtain ⟨hcur, hact, hids⟩ := ih
    have h1m : (1 : Nat) < u64Mod := by norm_num [u64Mod]
    have hmod : (k % u64Mod + 1) % u64Mod = (k + 1) % u64Mod := by
      conv_rhs => rw [Nat.add_mod]
      rw [Nat.mod_eq_of_lt h1m]
    refine ⟨?_, ?_, ?_⟩
    · show ((runConnects k).1.current_id + 1) % u64Mod = (k + 1) % u64Mod
      rw [hcur, hmod]
    · show ((runConnects k).1.current_id + 1) % u64Mod =
        if k + 1 = 0 then 0 else (k + 1) % u64Mod
      rw [hcur, hmod]
      simp
    · show (runConnects k).2 ++ [((runConnects k).1.current_id + 1) % u64Mod] =
        (List.range' 1 (k + 1)).map (· % u64Mod)
      rw [hids, hcur, hmod, List.range'_1_concat, List.map_append,
        Nat.add_comm 1 k]
      rfl

/-- C8, as stated, is false of the program: the `u64` counter wraps at
`2 ^ 64`, so the `2 ^ 64`-th connect call on a fresh client issues the
id `0` — "0 is never issued" (and with it strict increase) fails at
`N = 2 ^ 64`. -/
theorem claim8_counterexample : 0 ∈ (runConnects (2 ^ 64)).2 := by
  rw [(runConnects_spec (2 ^ 64)).2.2]
  refine List.mem_map.mpr ⟨2 ^ 64, ?_, ?_⟩
  · rw [List.mem_range'_1]
    norm_num
  · simp [u64Mod]

/-- C8 (amended): for every `n < 2 ^ 64` — below the wrap-around of the
`u64` counter — `n` sequential connects on a fresh client issue exactly
the ids `1, 2, …, n` — strictly increasing, starting at `1`, never `0` —
and after the `k`-th call both counters hold `k`, so the issued id is
the active id.  At `n = 2 ^ 64` the wrapped counter issues id `0`. -/
theorem claim8_identity (n : Nat) (hn : n < 2 ^ 64) :
    (runConnects n).2 = List.range' 1 n ∧
      (runConnects n).2.Pairwise (· < ·) ∧
      0 ∉ (runConnects n).2 ∧
      (runConnects n).1.current_id = n ∧
      (runConnects n).1.active_id = n ∧
      (∀ k, k + 1 ≤ n → (runConnects (k + 1)).1.active_id = k + 1) := by
  have hbig : (2 : Nat) ^ 64 = 18446744073709551616 := by norm_num
  rw [hbig] at hn
  have hm : u64Mod = 18446744073709551616 := by norm_num [u64Mod]
  obtain ⟨hcur, hact, hids0⟩ := runConnects_spec n
  have hids : (runConnects n).2 = List.range' 1 n := by
    rw [hids0]
    have hcong : ∀ x ∈ List.range' 1 n, x % u64Mod = x := by
      intro x hx
      rw [List.mem_range'_1] at hx
      exact Nat.mod_eq_of_lt (by rw [hm]; omega)
    calc (List.range' 1 n).map (· % u64Mod)
        = (List.range' 1 n).map id := List.map_congr_left hcong
      _ = List.range' 1 n := List.map_id _
  refine ⟨hids, ?_, ?_, ?_, ?_, ?_⟩
  · rw [hids]
    have : List.range' 1 n = (List.range n).map (· + 1) := by
      rw [List.range'_eq_map_range]
      simp [Nat.add_comm]
    rw [this]
    exact (List.pairwise_lt_range n).map _ (fun _ _ h => by omega)
  · rw [hids, List.mem_range']
    omega
  · rw [hcur]
    exact Nat.mod_eq_of_lt (by rw [hm]; omega)
  · rw [hact]
    cases n with
    | zero => rfl
    | succ k =>
      simp only [Nat.succ_ne_zero, if_false]
      exact Nat.mod_eq_of_lt (by rw [hm]; omega)
  · intro k hk
    have h1 := (runConnects_spec (k + 1)).2.1
    rw [h1]
    simp only [Nat.succ_ne_zero, if_false]
    exact Nat.mod_eq_of_lt (by rw [hm]; omega)

/-- Witness for C8 (amended): after the second of three sequential
connects, the active id is `2`. -/
theorem claim8_witness : (runConnects (1 + 1)).1.active_id = 1 + 1 :=
  (claim8_identity 3 (by norm_num)).2.2.2.2.2 1 (by decide)

/-- C9: `sse_disconnect` always returns `Ok`, unconditionally stores `0`
into the active id, leaves the `current_id` counter untouched, and is
idempotent. -/
theorem claim9_disconnect (s : SseState) :
    (sse_disconnect s).2 = CmdResult.ok ∧
      (sse_disconnect s).1.active_id = 0 ∧
      (sse_disconnect s).1.current_id = s.current_id ∧
      sse_disconnect (sse_disconnect s).1 = sse_disconnect s :=
  ⟨rfl, rfl, rfl, rfl⟩

/-- C6, as stated, is false: the code applies `str::trim()` to the text
after the `data:` tag, which removes trailing whitespace as well as
leading whitespace.  On the line `"data: x "` the accumulator receives
`"x"`, not the claimed `"x "`. -/
theorem claim6_counterexample :
    processLine [] "data: x ".toList = ("x".toList, none) ∧
      "x".toList ≠ "x ".toList := by
  decide

/-- C6 (amended): for every line whose `'\r'`-stripped form starts with
`data:`, the text appended to the accumulator is the remainder of the
line with whitespace trimmed from BOTH ends (`str::trim`), joined with
`'\n'` when the accumulator is non-empty; the append happens only when
that trimmed text is non-empty, and no message is emitted. -/
theorem claim6_amended (ed raw rest : List Char)
    (h : stripDataTag (trimEndCr raw) = some rest) :
    (rustTrim rest = [] → processLine ed raw = (ed, none)) ∧
      (rustTrim rest ≠ [] →
        processLine ed raw =
          ((if ed = [] then rustTrim rest else ed ++ '\n' :: rustTrim rest), none)) := by
  constructor
  · intro hd
    simp [processLine, h, hd]
  · intro hd
    by_cases he : ed = []
    · simp [processLine, h, he, List.isEmpty_iff, hd]
    · simp [processLine, h, he, List.isEmpty_iff, hd]

/-- Witness for C6 (amended): the line `"data: x "` with an empty
accumulator appends the both-ends-trimmed `"x"`. -/
theorem claim6_witness :
    stripDataTag (trimEndCr "data: x ".toList) = some " x ".toList ∧
      rustTrim " x ".toList ≠ [] ∧
      processLine [] "data: x ".toList = ("x".toList, none) := by
  refine ⟨by decide, by decide, ?_⟩
  rw [(claim6_amended [] "data: x ".toList " x ".toList (by decide)).2 (by decide)]
  decide

/-- A terminal event: `Disconnected` or `Error`. -/
def isTerminal : SseEvent → Bool
  | SseEvent.disconnected _ => true
  | SseEvent.error _ => true
  | _ => false

/-- Event-list shapes a terminating `sse_connect` can produce: nothing
(client build failure), a lone `Error` (handshake failure), or
`Connected`, the messages in production order, and one terminal event. -/
lemma sse_connect_shape (hs : HandshakeResult) (c : Nat → Bool)
    (reads : List ReadResult) (evs : List SseEvent) (res : CmdResult)
    (h : sse_connect hs c reads = some (evs, res)) :
    evs = [] ∨ (∃ m, evs = [SseEvent.error m]) ∨
      (∃ (msgs : List (List Char)) (term : SseEvent),
        evs = SseEvent.connected :: msgs.map SseEvent.message ++ [term] ∧
          isTerminal term = true) := by
  cases hs with
  | clientBuildErr e =>
    simp only [sse_connect, Option.some.injEq, Prod.mk.injEq] at h
    exact Or.inl h.1.symm
  | sendErr e =>
    simp only [sse_connect, Option.some.injEq, Prod.mk.injEq] at h
    exact Or.inr (Or.inl ⟨connFailedMsg e, h.1.symm⟩)
  | response success status =>
    cases success with
    | false =>
      simp only [sse_connect, Bool.false_eq_true, if_false, Option.some.injEq,
        Prod.mk.injEq] at h
      exact Or.inr (Or.inl ⟨statusErrMsg status, h.1.symm⟩)
    | true =>
      simp only [sse_connect, if_true] at h
      cases hrec : streamLoop c 0 [] [] reads with
      | none => rw [hrec] at h; exact absurd h (by simp)
      | some p =>
        rcases p with ⟨evs2, res2⟩
        rw [hrec] at h
        simp only [Option.map_some', Option.some.injEq, Prod.mk.injEq] at h
        obtain ⟨msgs, term, hshape, hterm⟩ :=
          streamLoop_shape reads c 0 [] [] evs2 res2 hrec
        refine Or.inr (Or.inr ⟨msgs, term, ?_, ?_⟩)
        · rw [← h.1, hshape]; simp
        · rcases hterm with ⟨_, r, hr⟩ | ⟨m, _, hm⟩
          · rw [hr]; rfl
          · rw [hm]; rfl

lemma getElem?_singleton {α : Type} (a e : α) (i : Nat)
    (h : ([a] : List α)[i]? = some e) : i = 0 ∧ e = a := by
  cases i with
  | zero =>
    refine ⟨rfl, ?_⟩
    simp only [List.getElem?_cons_zero, Option.some.injEq] at h
    exact h.symm
  | succ k => simp at h

lemma mem_of_getElem?_some {α : Type} {l : List α} {i : Nat} {e : α}
    (h : l[i]? = some e) : e ∈ l := by
  obtain ⟨hl, he⟩ := List.getElem?_eq_some.mp h
  exact he ▸ List.getElem_mem hl

/-- In the `Connected`-first shape, `Connected` occurs only at index 0. -/
lemma connected_index (msgs : List (List Char)) (term : SseEvent)
    (hterm : isTerminal term = true) (i : Nat)
    (h : (SseEvent.connected :: msgs.map SseEvent.message ++ [term])[i]? =
      some SseEvent.connected) : i = 0 := by
  cases i with
  | zero => rfl
  | succ k =>
    rw [List.cons_append, List.getElem?_cons_succ] at h
    rcases List.mem_append.mp (mem_of_getElem?_some h) with hm | hm
    · rcases List.mem_map.mp hm with ⟨m, _, hme⟩
      exact absurd hme (by simp)
    · have hct : SseEvent.connected = term := by simpa using hm
      rw [← hct] at hterm
      exact absurd hterm (by simp [isTerminal])

/-- In the `Connected`-first shape, a terminal event occurs only at the
last index. -/
lemma terminal_index (msgs : List (List Char)) (term e : SseEvent) (i : Nat)
    (hev : (SseEvent.connected :: msgs.map SseEvent.message ++ [term])[i]? = some e)
    (hte : isTerminal e = true) :
    i + 1 = (SseEvent.connected :: msgs.map SseEvent.message ++ [term]).length := by
  have hi : i < (SseEvent.connected :: msgs.map SseEvent.message ++ [term]).length :=
    (List.getElem?_eq_some.mp hev).1
  have hlen : (SseEvent.connected :: msgs.map SseEvent.message ++ [term]).length =
      (SseEvent.connected :: msgs.map SseEvent.message).length + 1 := by
    rw [List.length_append, List.length_singleton]
  rcases Nat.lt_or_ge i (SseEvent.connected :: msgs.map SseEvent.message).length
    with hlt | hge
  · exfalso
    rw [List.getElem?_append_left hlt] at hev
    rcases List.mem_cons.mp (mem_of_getElem?_some hev) with hm | hm
    · rw [hm] at hte
      exact absurd hte (by simp [isTerminal])
    · rcases List.mem_map.mp hm with ⟨m, _, hme⟩
      rw [← hme] at hte
      exact absurd hte (by simp [isTerminal])
  · omega

/-- C7: in every terminating run, `Connected` is emitted at most once
and before every `Message`; a terminal event (`Disconnected` or `Error`)
occurs at most once and only as the last event; and the whole event list
has the canonical shape — optional `Connected` first, the messages in
production order, one terminal event last. -/
theorem claim7_ordering (hs : HandshakeResult) (c : Nat → Bool)
    (reads : List ReadResult) (evs : List SseEvent) (res : CmdResult)
    (h : sse_connect hs c reads = some (evs, res)) :
    (∀ i j : Nat, evs[i]? = some SseEvent.connected →
        evs[j]? = some SseEvent.connected → i = j) ∧
      (∀ (i j : Nat) (m : List Char), evs[i]? = some SseEvent.connected →
        evs[j]? = some (SseEvent.message m) → i < j) ∧
      (∀ (i : Nat) (e : SseEvent), evs[i]? = some e → isTerminal e = true →
        i + 1 = evs.length) ∧
      (∀ (i j : Nat) (e1 e2 : SseEvent), evs[i]? = some e1 → evs[j]? = some e2 →
        isTerminal e1 = true → isTerminal e2 = true → i = j) ∧
      (evs = [] ∨ (∃ m, evs = [SseEvent.error m]) ∨
        (∃ (msgs : List (List Char)) (term : SseEvent),
          evs = SseEvent.connected :: msgs.map SseEvent.message ++ [term] ∧
            isTerminal term = true)) := by
  have hshape := sse_connect_shape hs c reads evs res h
  have hterm_last : ∀ i e, evs[i]? = some e → isTerminal e = true →
      i + 1 = evs.length := by
    rcases hshape with hnil | ⟨m, herr⟩ | ⟨msgs, term, hsh, hterm⟩
    · intro i e hev _; rw [hnil] at hev; simp at hev
    · intro i e hev _
      rw [herr] at hev ⊢
      obtain ⟨hi0, _⟩ := getElem?_singleton _ _ _ hev
      rw [hi0]; rfl
    · intro i e hev hte
      rw [hsh] at hev ⊢
      exact terminal_index msgs term e i hev hte
  refine ⟨?_, ?_, hterm_last, ?_, hshape⟩
  · rcases hshape with hnil | ⟨m, herr⟩ | ⟨msgs, term, hsh, hterm⟩
    · intro i j hi _; rw [hnil] at hi; simp at hi
    · intro i j hi _
      rw [herr] at hi
      obtain ⟨_, hie⟩ := getElem?_singleton _ _ _ hi
      exact absurd hie (by simp)
    · intro i j hi hj
      rw [hsh] at hi hj
      rw [connected_index msgs term hterm i hi, connected_index msgs term hterm j hj]
  · rcases hshape with hnil | ⟨m, herr⟩ | ⟨msgs, term, hsh, hterm⟩
    · intro i j m hi _; rw [hnil] at hi; simp at hi
    · intro i j m hi _
      rw [herr] at hi
      obtain ⟨_, hie⟩ := getElem?_singleton _ _ _ hi
      exact absurd hie (by simp)
    · intro i j m hi hj
      rw [hsh] at hi hj
      have hi0 : i = 0 := connected_index msgs term hterm i hi
      have hj0 : j ≠ 0 := by
        intro hj0
        rw [hj0] at hj
        simp at hj
      omega
  · intro i j e1 e2 h1 h2 ht1 ht2
    have := hterm_last i e1 h1 ht1
    have := hterm_last j e2 h2 ht2
    omega

/-- Witness for C7: the run of the concrete graceful-end trace has its
terminal event exactly at the last position. -/
theorem claim7_witness :
    1 + 1 = ([SseEvent.connected, SseEvent.disconnected streamEnded] :
      List SseEvent).length :=
  (claim7_ordering (HandshakeResult.response true []) (fun _ => false)
      [ReadResult.eof] [SseEvent.connected, SseEvent.disconnected streamEnded]
      CmdResult.ok (by decide)).2.2.1 1 (SseEvent.disconnected streamEnded)
    (by decide) (by decide)

end OpenCodeUI
